import Mathlib

set_option maxRecDepth 4000

/-!
Verification development for the VORTEX engine core.

The definitions below are a shallow embedding of the Rust sources:
vortex-rpc/src/lib.rs (wire protocol), vortex-core/src/storage/wal.rs
(WAL manager and replay iterator), vortex-core/src/storage/batch.rs
(batch accumulator), vortex-core/src/index/simd.rs (distance kernels),
vortex-core/src/index/hnsw.rs (graph index), and
vortex-core/src/reactor.rs (shard reactor).  Machine integers are
modelled as Nat or Int with explicit wrapping or saturation where the
hardware semantics matter; byte buffers are lists of Nat byte values.
-/

namespace Vortex

/-! ### Wire protocol (vortex-rpc/src/lib.rs)

The 16-byte request header, `#[repr(C)]` little-endian layout:
magic u16, version u8, opcode u8, payload_len u32, request_id u64.
-/

/-- VBP_MAGIC = 0x5658. -/
def VBP_MAGIC : Nat := 0x5658

/-- STATUS_OK = 0. -/
def STATUS_OK : Nat := 0

/-- STATUS_ERR = 1. -/
def STATUS_ERR : Nat := 1

/-- CMD_UPSERT opcode = 1 (reactor.rs). -/
def CMD_UPSERT : Nat := 1

/-- CMD_SEARCH opcode = 5 (reactor.rs). -/
def CMD_SEARCH : Nat := 5

/-- RequestHeader from vortex-rpc/src/lib.rs, fields as unbounded Nat
with the intended bit-widths tracked by `WfHeader`. -/
structure RequestHeader where
  magic : Nat
  version : Nat
  opcode : Nat
  payload_len : Nat
  request_id : Nat
deriving DecidableEq, Repr

/-- Field ranges of the Rust struct (u16, u8, u8, u32, u64). -/
def WfHeader (h : RequestHeader) : Prop :=
  h.magic < 2 ^ 16 ∧ h.version < 2 ^ 8 ∧ h.opcode < 2 ^ 8 ∧
    h.payload_len < 2 ^ 32 ∧ h.request_id < 2 ^ 64

instance (h : RequestHeader) : Decidable (WfHeader h) := by
  unfold WfHeader; infer_instance

/-- Little-endian byte encoding of a u16. -/
def le16 (x : Nat) : List Nat := [x % 256, x / 256 % 256]

/-- Little-endian byte encoding of a u32. -/
def le32 (x : Nat) : List Nat :=
  [x % 256, x / 256 % 256, x / 65536 % 256, x / 16777216 % 256]

/-- Little-endian byte encoding of a u64. -/
def le64 (x : Nat) : List Nat :=
  [x % 256, x / 256 % 256, x / 65536 % 256, x / 16777216 % 256,
   x / 4294967296 % 256, x / 1099511627776 % 256,
   x / 281474976710656 % 256, x / 72057594037927936 % 256]

/-- The 16 header bytes in memory order (repr C, little-endian). -/
def encodeHeader (h : RequestHeader) : List Nat :=
  le16 h.magic ++ [h.version % 256, h.opcode % 256] ++
    le32 h.payload_len ++ le64 h.request_id

/-- One full frame as it travels on the wire and in the WAL:
16-byte header followed by the payload. -/
def encodeFrame (h : RequestHeader) (payload : List Nat) : List Nat :=
  encodeHeader h ++ payload

/-- Reading a RequestHeader from the first 16 bytes of a buffer: the
pointer cast `&*(bytes.as_ptr() as *const RequestHeader)` on a
little-endian machine. -/
def decodeHeader (b : List Nat) : RequestHeader :=
  { magic := b.getD 0 0 + 256 * b.getD 1 0
    version := b.getD 2 0
    opcode := b.getD 3 0
    payload_len := b.getD 4 0 + 256 * b.getD 5 0 + 65536 * b.getD 6 0 +
      16777216 * b.getD 7 0
    request_id := b.getD 8 0 + 256 * b.getD 9 0 + 65536 * b.getD 10 0 +
      16777216 * b.getD 11 0 + 4294967296 * b.getD 12 0 +
      1099511627776 * b.getD 13 0 + 281474976710656 * b.getD 14 0 +
      72057594037927936 * b.getD 15 0 }

/-! ### WAL replay (storage/wal.rs `WalIterator::next` and the recovery
loop in `ShardReactor::new`, reactor.rs lines 98-137)

`walReplay` returns the sequence of entries yielded before the iterator
stops, together with the truncation offset the reactor applies on the
first `Err` (it truncates to `iter.bytes_read()` and breaks), or `none`
when the iterator ends cleanly.  Faithful details:
* fewer than 16 remaining bytes on the header read gives
  `ErrorKind::UnexpectedEof`, which `next` treats as clean termination
  (no truncation), whether 0 bytes remain or a partial header remains;
* `bytes_read` is advanced by 16 once the magic is validated, before
  the payload read, so a short payload read truncates to the position
  just after the 16 validated header bytes. -/

def walReplay (file : List Nat) :
    List (RequestHeader × List Nat) × Option Nat :=
  if file.length < 16 then ([], none)
  else
    let h := decodeHeader file
    if h.magic ≠ VBP_MAGIC then ([], some 0)
    else if file.length - 16 < h.payload_len then ([], some 16)
    else
      let payload := (file.drop 16).take h.payload_len
      let res := walReplay (file.drop (16 + h.payload_len))
      ((h, payload) :: res.1, res.2.map (· + (16 + h.payload_len)))
termination_by file.length
decreasing_by
  simp only [List.length_drop]
  omega

/-! ### WAL manager (storage/wal.rs `WalManager`) -/

/-- WalManager state: the logical append offset. -/
structure WalManager where
  current_offset : Nat
deriving DecidableEq, Repr

/-- Model of `WalManager::new`: the append cursor starts at the current file
size. -/
def WalManager.new (file_size : Nat) : WalManager :=
  { current_offset := file_size }

/-- Model of `WalManager::write_entry`: builds an SQE writing at
`current_offset` and advances the offset by `len` (optimistic append).
Returns the offset the submitted write uses. -/
def WalManager.write_entry (w : WalManager) (len : Nat) : Nat × WalManager :=
  (w.current_offset, { current_offset := w.current_offset + len })

/-- Model of `WalManager::truncate`: prune to `offset` and reset the cursor. -/
def WalManager.truncate (w : WalManager) (offset : Nat) : WalManager :=
  { w with current_offset := offset }

/-! ### Batch accumulator (storage/batch.rs) -/

/-- Overwrite `buf` starting at `pos` with `data`
(`ptr::copy_nonoverlapping` into the staging buffer). -/
def list_write (buf : List Nat) (pos : Nat) (data : List Nat) : List Nat :=
  buf.take pos ++ data ++ buf.drop (pos + data.length)

/-- BatchAccumulator: 256 KiB staging buffer, write cursor, request
tags. -/
structure BatchAccumulator where
  buffer : List Nat
  cursor : Nat
  tags : List Nat
  capacity : Nat
deriving DecidableEq, Repr

/-- Model of `BatchAccumulator::new` with the 262144-byte staging buffer (the
fresh pinned allocation is modelled as zero bytes). -/
def BatchAccumulator.new : BatchAccumulator :=
  { buffer := List.replicate 262144 0, cursor := 0, tags := [],
    capacity := 262144 }

/-- Model of `BatchAccumulator::try_add`.  The Rust method mutates in place and
returns `Result<(), ()>`; the model returns the success flag together
with the state after the call. -/
def BatchAccumulator.try_add (b : BatchAccumulator) (data : List Nat)
    (tag : Nat) : Bool × BatchAccumulator :=
  if b.cursor + data.length > b.capacity then (false, b)
  else
    (true,
      { b with
        buffer := list_write b.buffer b.cursor data
        cursor := b.cursor + data.length
        tags := b.tags ++ [tag] })

/-- Model of `BatchAccumulator::is_dirty`. -/
def BatchAccumulator.is_dirty (b : BatchAccumulator) : Bool :=
  b.cursor > 0

/-- Model of `BatchAccumulator::prepare_flush`: round the cursor up to a 4-KiB
boundary, zero the padding, reset the cursor, and hand back the bytes
and length submitted to the WAL write. -/
def BatchAccumulator.prepare_flush (b : BatchAccumulator) :
    (List Nat × Nat) × BatchAccumulator :=
  if b.cursor = 0 then (([], 0), b)
  else
    let aligned_len := (b.cursor + 4095) / 4096 * 4096
    let buffer1 := list_write b.buffer b.cursor
      (List.replicate (aligned_len - b.cursor) 0)
    ((buffer1.take aligned_len, aligned_len),
      { b with buffer := buffer1, cursor := 0 })

/-- Model of `BatchAccumulator::take_tags`. -/
def BatchAccumulator.take_tags (b : BatchAccumulator) :
    List Nat × BatchAccumulator :=
  (b.tags, { b with tags := [] })

/-! ### Integer distance kernels (index/simd.rs)

i8 and u8 element values are carried as Int; `wrap16`/`wrap32` are
two-complement wrapping to 16 and 32 bits, `sat16` is signed 16-bit
saturation (the `_mm256_maddubs_epi16` pair-sum semantics). -/

/-- Two-complement wrap to i16. -/
def wrap16 (x : Int) : Int := (x + 2 ^ 15) % 2 ^ 16 - 2 ^ 15

/-- Two-complement wrap to i32. -/
def wrap32 (x : Int) : Int := (x + 2 ^ 31) % 2 ^ 32 - 2 ^ 31

/-- Signed saturation to i16. -/
def sat16 (x : Int) : Int := max (-32768) (min 32767 x)

/-- Model of `scalar_dot_u8`: `sum += (v[i] as i16 * q[i] as i16) as i32` over
i in 0..n, then return `-sum` (i32 arithmetic). -/
def scalar_dot_u8 (q v : List Int) : Int :=
  wrap32 (0 - List.foldl (fun s p => wrap32 (s + wrap16 (p.1 * p.2))) 0
    (List.zip v q))

/-- Model of `_mm256_maddubs_epi16` over a flat chunk: each adjacent
(unsigned, signed) byte pair is multiplied exactly and the pair sum is
saturated to i16. -/
def maddubs : List (Int × Int) → List Int
  | p :: q :: rest => sat16 (p.1 * p.2 + q.1 * q.2) :: maddubs rest
  | _ => []

/-- Horizontal reduction of i32 lanes with wrapping adds
(`_mm256_madd_epi16` with ones, `_mm256_add_epi32`, and the
`hadd`/extract reduction; 32-bit wrapping addition is associative and
commutative, so the lane structure folds to one running sum). -/
def hsum32 (l : List Int) : Int :=
  List.foldl (fun s x => wrap32 (s + x)) 0 l

/-- The main AVX2 loop of `dot_product_u8_avx2`: process 32 (v, q)
byte pairs per iteration while `i + 32 <= n`, returning the i32
accumulator and the unprocessed tail. -/
def avx2_chunks (l : List (Int × Int)) (acc : Int) : Int × List (Int × Int) :=
  if 32 ≤ l.length then
    avx2_chunks (l.drop 32) (wrap32 (acc + hsum32 (maddubs (l.take 32))))
  else (acc, l)
termination_by l.length
decreasing_by
  simp only [List.length_drop]
  omega

/-- Model of `dot_product_u8_avx2`: the AVX2 body plus the scalar tail, then the
final negation. -/
def dot_product_u8_avx2 (q v : List Int) : Int :=
  let s := avx2_chunks (List.zip v q) 0
  wrap32 (0 - List.foldl (fun a p => wrap32 (a + wrap16 (p.1 * p.2))) s.1 s.2)

/-! ### HNSW index fragments (index/hnsw.rs) -/

/-- The all-ones empty-slot marker `u32::MAX` in the link arena. -/
def SENTINEL : Nat := 4294967295

/-- Model of `HnswIndex::add_neighbor` restricted to one adjacency row (the
`max_links`-long slice for a node and level): scan slots in order,
write into the first sentinel slot, stop early if the id is already
present; if every slot is occupied by another id, return without
adding. -/
def add_neighbor (slots : List Nat) (neighbor_id : Nat) : List Nat :=
  match slots with
  | [] => []
  | s :: rest =>
    if s = SENTINEL then neighbor_id :: rest
    else if s = neighbor_id then s :: rest
    else s :: add_neighbor rest neighbor_id

/-- Model of `HnswIndex::prune_connections` on one adjacency row: collect the
populated slots with their distances to the pruned node, return the
row unchanged when at most `max_links` neighbors are populated,
otherwise keep the `max_links` closest.  The row passed by the caller
is exactly `max_links` slots long. -/
def prune_connections (slots : List Nat) (dist : Nat → Int)
    (max_links : Nat) : List Nat :=
  let neighbors := (slots.takeWhile (fun s => decide (s ≠ SENTINEL))).map
    (fun nid => (nid, dist nid))
  if neighbors.length ≤ max_links then slots
  else
    ((neighbors.mergeSort (fun a b => decide (a.2 ≤ b.2))).map Prod.fst).take
      max_links ++ slots.drop max_links

/-- The arena, identifier-map and reverse-map updates of
`HnswIndex::insert` (hnsw.rs lines 260-272): the capacity guard
returns early when `map.len() >= max_elements`; otherwise one row is
appended to the vector arena and the id is inserted into the map
(overwriting silently when the key already exists).  The graph-link
code later in `insert` modifies neither the arenas nor the map, so
this projection determines the logical row count exactly.  `keys` is
the set of map keys, `rows` the number of logical rows. -/
structure HnswRowState where
  rows : Nat
  keys : List Nat
deriving DecidableEq, Repr

def hnsw_insert_rows (max_elements : Nat) (s : HnswRowState) (id : Nat) :
    HnswRowState :=
  if s.keys.length ≥ max_elements then s
  else
    { rows := s.rows + 1
      keys := if id ∈ s.keys then s.keys else id :: s.keys }

/-! ### Valid frames -/

/-- A frame value (header and payload) that is well formed on the wire:
fields within their bit-widths, correct magic, and a payload of exactly
the declared length. -/
def ValidFrame (f : RequestHeader × List Nat) : Prop :=
  WfHeader f.1 ∧ f.1.magic = VBP_MAGIC ∧ f.2.length = f.1.payload_len

instance (f : RequestHeader × List Nat) : Decidable (ValidFrame f) := by
  unfold ValidFrame; infer_instance

/-- Byte image of a list of frames laid end to end. -/
def encodeFrames (fs : List (RequestHeader × List Nat)) : List Nat :=
  (fs.map fun f => encodeFrame f.1 f.2).flatten

/-! ### Framing and reassembly (reactor.rs `process_ingress`,
`handle_ingress`, `submit_read_at`)

`FrameSt` isolates the per-connection framing state: the receive
window between `consumed` and `accumulated` (kept here already
compacted, as the loop compacts before every re-armed read), the
frames recognised so far in order, the protocol-violation flag
(`active_fds[idx] = None` on a bad magic), and whether the connection
has reached the state in which `submit_read_at` refuses to arm a read
because `offset >= buf.len()` with a full 65536-byte receive buffer
and no parsable frame, after which no event can ever drain the buffer.
Frame handling effects other than recognition (batching, responses)
live in the full reactor model below. -/

/-- Receive buffer page size: `BufferPool::new((ring_entries * 2), 65536)`. -/
def RECV_CAP : Nat := 65536

structure FrameSt where
  parsed : List (RequestHeader × List Nat)
  buf : List Nat
  dead : Bool
  stalled : Bool
deriving DecidableEq, Repr

def FrameSt.init : FrameSt :=
  { parsed := [], buf := [], dead := false, stalled := false }

/-- The framing loop of `process_ingress`: while at least 16 bytes are
available read the header at `consumed`; kill the connection on a bad
magic; stop (to await more bytes) when the full frame is not yet
available; otherwise recognise the frame and advance by
`16 + payload_len`. -/
def parse_avail (st : FrameSt) : FrameSt :=
  if st.dead then st
  else if st.buf.length < 16 then st
  else
    let h := decodeHeader st.buf
    if h.magic ≠ VBP_MAGIC then { st with dead := true }
    else if st.buf.length < 16 + h.payload_len then st
    else
      parse_avail
        { st with
          parsed := st.parsed ++ [(h, (st.buf.drop 16).take h.payload_len)]
          buf := st.buf.drop (16 + h.payload_len) }
termination_by st.buf.length
decreasing_by
  simp only [List.length_drop]
  omega

/-- Delivery of one contiguous chunk of the byte stream through read
completions: each read appends at most the remaining buffer space
(after compaction the space is `65536 - window`), and the framing loop
runs after every completed read.  When no space remains the connection
is permanently stalled (`submit_read_at` returns without arming a
read) and the undelivered bytes never enter the buffer. -/
def feed_read (st : FrameSt) (chunk : List Nat) : FrameSt :=
  match chunk with
  | [] => st
  | b :: rest =>
    if st.dead then st
    else if RECV_CAP - st.buf.length = 0 then { st with stalled := true }
    else
      let t := min (RECV_CAP - st.buf.length) (b :: rest).length
      feed_read (parse_avail { st with buf := st.buf ++ (b :: rest).take t })
        ((b :: rest).drop t)
termination_by chunk.length
decreasing_by
  simp only [List.length_drop, List.length_cons]
  omega

/-- Delivery of a byte stream cut into arbitrary contiguous splits. -/
def feed_splits (st : FrameSt) (splits : List (List Nat)) : FrameSt :=
  splits.foldl feed_read st

/-- A buffer on which the framing loop makes no progress: fewer than
16 bytes, or a valid header whose frame is not yet complete. -/
def BlockedBuf (b : List Nat) : Prop :=
  b.length < 16 ∨
    ((decodeHeader b).magic = VBP_MAGIC ∧
      b.length < 16 + (decodeHeader b).payload_len)

instance (b : List Nat) : Decidable (BlockedBuf b) := by
  unfold BlockedBuf; infer_instance

/-- A frame whose wire image fits inside the 65536-byte receive
buffer. -/
def FitsFrame (f : RequestHeader × List Nat) : Prop :=
  16 + f.1.payload_len ≤ RECV_CAP

instance (f : RequestHeader × List Nat) : Decidable (FitsFrame f) := by
  unfold FitsFrame; infer_instance

/-! ### Shard reactor (reactor.rs)

One shard with its 32 connection slots, the active and flushing batch
accumulators, the WAL appender and the paused-reads list.  The model
records externally visible actions in an append-only trace:

* `Obs.ackPrepared c op st id`: a 16-byte response header with the
  given opcode, status and request id is written into the transmit
  page of slot `c` (`prepare_response_buffer`, and the header loop of
  `handle_batch_complete`);
* `Obs.searchExec c q`: `index.search` runs for slot `c` with query
  bit-pattern `q` (the `CMD_SEARCH` arm of `process_ingress`);
* `Obs.flushSubmitted len`: `flush_active_batch` submits a batch WAL
  write of `len` bytes (tag `TAG_BATCH_WRITE`);
* `Obs.batchDone tags`: `handle_batch_complete` runs for the flushed
  batch whose per-request tags are `tags`.

Completions only exist for submitted operations, and the reactor never
submits an SQE tagged `TAG_WAL_PREFIX`, so `handle_wal_complete` is
unreachable and has no event here.  Read arming and its pacing by
`pending_ops` and `read_in_flight` are abstracted: `Ev.ingress`
delivers socket bytes whenever buffer space exists, which only extends
the set of schedules. -/

/-- Bit patterns of `scratch_query_buffer`, the `Box<[f32; 128]>`
created as `[0.0f32; 128]` in `ShardReactor::new` and never written
afterwards. -/
def zero_query : List Nat := List.replicate 128 0

inductive Obs where
  | ackPrepared (conn op statusCode req_id : Nat)
  | searchExec (conn : Nat) (query : List Nat)
  | flushSubmitted (len : Nat)
  | batchDone (tags : List Nat)
deriving DecidableEq, Repr

/-- Per-connection slot state. -/
structure Conn where
  buf : List Nat
  dead : Bool
  pending_ops : Nat
  pending_acks : Nat
  write_in_flight : Bool
  write_len : Nat
deriving DecidableEq, Repr

def Conn.init : Conn :=
  { buf := [], dead := false, pending_ops := 0, pending_acks := 0,
    write_in_flight := false, write_len := 0 }

structure Reactor where
  conns : Nat → Conn
  scratch_query : List Nat
  active_batch : BatchAccumulator
  flushing : Option (BatchAccumulator × Nat)
  paused_reads : List Nat
  wal : WalManager
  trace : List Obs

def Reactor.init : Reactor :=
  { conns := fun _ => Conn.init
    scratch_query := zero_query
    active_batch := BatchAccumulator.new
    flushing := none
    paused_reads := []
    wal := WalManager.new 0
    trace := [] }

def getConn (r : Reactor) (c : Nat) : Conn := r.conns c

def setConn (r : Reactor) (c : Nat) (cn : Conn) : Reactor :=
  { r with conns := fun i => if i = c then cn else r.conns i }

def emit (r : Reactor) (o : Obs) : Reactor :=
  { r with trace := r.trace ++ [o] }

/-- Model of `prepare_response_buffer`: write one response header at the
`pending_acks * 16` offset of the transmit page and bump
`pending_acks` (the page is written whether or not the slot still has
a socket). -/
def prepare_response (r : Reactor) (c op st req : Nat) : Reactor :=
  let cn := getConn r c
  emit (setConn r c { cn with pending_acks := cn.pending_acks + 1 })
    (Obs.ackPrepared c op st req)

/-- Model of `submit_write` with `len = None`: skip when the slot has no
socket or a write is in flight; otherwise take `pending_acks * 16`
bytes, reset `pending_acks`, and submit when nonempty. -/
def submit_write (r : Reactor) (c : Nat) : Reactor :=
  let cn := getConn r c
  if cn.dead then r
  else if cn.write_in_flight then r
  else
    let wl := cn.pending_acks * 16
    if wl = 0 then setConn r c { cn with pending_acks := 0 }
    else
      setConn r c
        { cn with
          pending_acks := 0
          write_in_flight := true
          write_len := wl }

/-- Model of `flush_active_batch`: do nothing unless the batch is dirty
and no flush is pending; otherwise swap in a fresh accumulator,
sector-align the staged bytes, submit the WAL write at the current
append offset, and remember the in-flight batch. -/
def flush_active (r : Reactor) : Reactor :=
  if ¬ r.active_batch.is_dirty then r
  else if r.flushing.isSome then r
  else
    let pf := r.active_batch.prepare_flush
    let len := pf.1.2
    let we := r.wal.write_entry len
    emit
      { r with
        active_batch := BatchAccumulator.new
        flushing := some (pf.2, len)
        wal := we.2 }
      (Obs.flushSubmitted len)

/-- Drop `n` consumed bytes from the receive window of slot `c`. -/
def consume (r : Reactor) (c n : Nat) : Reactor :=
  let cn := getConn r c
  setConn r c { cn with buf := cn.buf.drop n }

/-- The framing-and-dispatch loop of `process_ingress` for slot `c`.
The fuel argument bounds the number of iterations; callers pass the
window length, which the loop strictly consumes.  Branches follow the
source: search executes synchronously against `scratch_query` and
emits an ok response; upsert appends the raw frame to the active
batch, flushing and retrying on capacity, with an error response when
the frame cannot fit an empty batch and a pause on the
`paused_reads` list when a flush is already in flight; unknown
opcodes get an error response. -/
def proc_frames (fuel : Nat) (r : Reactor) (c : Nat) : Reactor :=
  match fuel with
  | 0 => r
  | fuel + 1 =>
    let cn := getConn r c
    if cn.dead then r
    else if cn.buf.length < 16 then r
    else
      let h := decodeHeader cn.buf
      if h.magic ≠ VBP_MAGIC then setConn r c { cn with dead := true }
      else
        let expected := 16 + h.payload_len
        if cn.buf.length < expected then r
        else if h.opcode = CMD_SEARCH then
          let r1 := emit r (Obs.searchExec c r.scratch_query)
          let cn1 := getConn r1 c
          let r2 := setConn r1 c { cn1 with pending_ops := cn1.pending_ops + 1 }
          let r3 := prepare_response r2 c CMD_SEARCH STATUS_OK h.request_id
          let r4 := submit_write r3 c
          proc_frames fuel (consume r4 c expected) c
        else if h.opcode = CMD_UPSERT then
          let frame := cn.buf.take expected
          let ta := r.active_batch.try_add frame c
          if ta.1 then
            let r1 := { r with active_batch := ta.2 }
            let cn1 := getConn r1 c
            let r2 := setConn r1 c { cn1 with pending_ops := cn1.pending_ops + 1 }
            proc_frames fuel (consume r2 c expected) c
          else if r.flushing.isNone then
            let rf := flush_active r
            let ta2 := rf.active_batch.try_add frame c
            if ta2.1 then
              let r1 := { rf with active_batch := ta2.2 }
              let cn1 := getConn r1 c
              let r2 := setConn r1 c { cn1 with pending_ops := cn1.pending_ops + 1 }
              proc_frames fuel (consume r2 c expected) c
            else
              let r1 := prepare_response rf c CMD_UPSERT STATUS_ERR h.request_id
              let r2 := submit_write r1 c
              let cn2 := getConn r2 c
              let r3 := setConn r2 c { cn2 with pending_ops := cn2.pending_ops + 1 }
              proc_frames fuel (consume r3 c expected) c
          else
            { r with paused_reads :=
                if c ∈ r.paused_reads then r.paused_reads
                else r.paused_reads ++ [c] }
        else
          let cn1 := getConn r c
          let r1 := setConn r c { cn1 with pending_ops := cn1.pending_ops + 1 }
          let r2 := prepare_response r1 c h.opcode STATUS_ERR h.request_id
          let r3 := submit_write r2 c
          proc_frames fuel (consume r3 c expected) c

/-- Delivery of one contiguous chunk of socket bytes to slot `c`
through read completions bounded by the free buffer space (compare
`feed_read`); the fuel is the chunk length, consumed strictly. -/
def ingest (fuel : Nat) (r : Reactor) (c : Nat) (chunk : List Nat) : Reactor :=
  match fuel with
  | 0 => r
  | fuel + 1 =>
    let cn := getConn r c
    if cn.dead then r
    else if chunk.isEmpty then r
    else
      let space := RECV_CAP - cn.buf.length
      if space = 0 then r
      else
        let t := min space chunk.length
        let r1 := setConn r c { cn with buf := cn.buf ++ chunk.take t }
        let r2 := proc_frames (getConn r1 c).buf.length r1 c
        ingest fuel r2 c (chunk.drop t)

/-- One slot of the per-connection acknowledgment grouping inside
`handle_batch_complete`: when the flushed batch holds requests of slot
`idx`, write that many ok response headers into the transmit page at
the `pending_acks` offset and submit one aggregated socket write if
none is in flight. -/
def ack_step (tags : List Nat) (racc : Reactor) (idx : Nat) : Reactor :=
  let count := List.count idx tags
  if count = 0 then racc
  else
    let racc1 := { racc with
      trace := racc.trace ++
        List.replicate count (Obs.ackPrepared idx CMD_UPSERT STATUS_OK 0) }
    let cn := getConn racc1 idx
    let racc2 := setConn racc1 idx
      { cn with pending_acks := cn.pending_acks + count }
    if (getConn racc2 idx).write_in_flight then racc2
    else submit_write racc2 idx

/-- Waking one paused reader (`process_ingress` re-run). -/
def wake_step (racc : Reactor) (idx : Nat) : Reactor :=
  proc_frames (getConn racc idx).buf.length racc idx

/-- Model of `handle_batch_complete`: retire the flushed batch, emit the
completion, write one ok upsert response header per request grouped by
originating slot (request id 0), submit one aggregated socket write per
slot without a write in flight, then wake every paused reader. -/
def handle_batch_complete (r : Reactor) (batch : BatchAccumulator) : Reactor :=
  let tags := batch.take_tags.1
  let r1 := emit { r with flushing := none } (Obs.batchDone tags)
  let r2 := (List.range 32).foldl (ack_step tags) r1
  let pend := r2.paused_reads
  let r3 := { r2 with paused_reads := [] }
  pend.foldl wake_step r3

/-- Model of `handle_write_complete`: clear the write flag, immediately
submit any accumulated responses, retire acknowledged operations
(saturating), and run the framing loop again. -/
def handle_write_complete (r : Reactor) (c : Nat) : Reactor :=
  let cn := getConn r c
  if ¬ cn.write_in_flight then r
  else
    let res := cn.write_len
    let r1 := setConn r c { cn with write_in_flight := false }
    let r2 := submit_write r1 c
    let cn2 := getConn r2 c
    let acks_in_write := res / 16
    let r3 := setConn r2 c
      { cn2 with pending_ops :=
          if acks_in_write > cn2.pending_ops then 0
          else cn2.pending_ops - acks_in_write }
    proc_frames (getConn r3 c).buf.length r3 c

/-- External events driving one shard: a socket read completion
delivering bytes (empty = EOF) on one of the 32 slots, the end-of-tick
flush, the batch WAL write completion, and a socket write
completion. -/
inductive Ev where
  | ingress (c : Nat) (chunk : List Nat)
  | flushEot
  | batchDone
  | writeDone (c : Nat)
deriving DecidableEq, Repr

def step (r : Reactor) (e : Ev) : Reactor :=
  match e with
  | .ingress c chunk =>
    if 32 ≤ c then r
    else if chunk.isEmpty then
      let cn := getConn r c
      setConn r c
        { cn with
          dead := true
          buf := if cn.pending_ops = 0 then [] else cn.buf }
    else ingest chunk.length r c chunk
  | .flushEot => flush_active r
  | .batchDone =>
    match r.flushing with
    | none => r
    | some fl => handle_batch_complete r fl.1
  | .writeDone c => handle_write_complete r c

def run_events (es : List Ev) : Reactor :=
  es.foldl step Reactor.init

/-! ### Trace accounting for the durability ordering -/

/-- Recognises an ok-status upsert response header prepared for slot
`c`. -/
def isOkUpsertAck (c : Nat) (o : Obs) : Bool :=
  match o with
  | .ackPrepared c2 op st _ => c2 == c && op == CMD_UPSERT && st == STATUS_OK
  | _ => false

/-- Number of ok upsert response headers prepared for slot `c`. -/
def ok_upsert_acks (tr : List Obs) (c : Nat) : Nat :=
  tr.countP (isOkUpsertAck c)

/-- Contribution of one observation to the count of slot-`c` upserts
whose containing batch WAL write has completed. -/
def committed_count (c : Nat) (o : Obs) : Nat :=
  match o with
  | .batchDone tags => List.count c tags
  | _ => 0

/-- Number of slot-`c` upserts inside batches whose WAL write has
completed (each completed batch contributes one per recorded tag). -/
def committed_upserts (tr : List Obs) (c : Nat) : Nat :=
  (tr.map (committed_count c)).sum

/-- Trace extension that adds no ok upsert responses and no completed
batches: the relation `TraceNeutral r1 r2` says `r2` extends the trace
of `r1` only with observations that leave both sides of the
durability-ordering ledger unchanged. -/
def TraceNeutral (r1 r2 : Reactor) : Prop :=
  ∃ ext, r2.trace = r1.trace ++ ext ∧
    (∀ c, ext.countP (isOkUpsertAck c) = 0) ∧
    (∀ c, (ext.map (committed_count c)).sum = 0)

/-- Invariant tying a connection mid-delivery to the frame stream: the
frames recognised so far are a prefix of the stream, the buffer plus
the undelivered bytes are exactly the remaining frames, and the buffer
holds less than one full frame. -/
def FrameInv (fs : List (RequestHeader × List Nat)) (st : FrameSt)
    (rest : List Nat) : Prop :=
  st.dead = false ∧ st.stalled = false ∧
  ∃ gs hs, fs = gs ++ hs ∧ st.parsed = gs ∧
    st.buf ++ rest = encodeFrames hs ∧
    (hs = [] → st.buf = []) ∧
    (∀ f2 hs2, hs = f2 :: hs2 → st.buf.length < 16 + f2.1.payload_len)

/-! ### Concrete inputs used by the claim theorems -/

/-- A single oversized but otherwise valid frame: 16-byte header with
payload_len 65521, total 65537 bytes, one more than the receive
buffer. -/
def c7_big_header : RequestHeader := ⟨VBP_MAGIC, 1, 1, 65521, 3⟩

def c7_big_frame : List Nat :=
  encodeFrame c7_big_header (List.replicate 65521 0)

/-- A small valid frame list and a 2-split delivery of its byte image,
used to witness the amended framing theorem. -/
def c7_wfs : List (RequestHeader × List Nat) :=
  [(⟨VBP_MAGIC, 1, 1, 4, 9⟩, [1, 2, 3, 4])]

def c7_wsplits : List (List Nat) :=
  [(encodeFrames c7_wfs).take 10, (encodeFrames c7_wfs).drop 10]


/-- One valid upsert frame: payload 12 bytes (8-byte id plus one
float). -/
def c3_frame : RequestHeader × List Nat :=
  (⟨VBP_MAGIC, 1, 1, 12, 1⟩, List.replicate 12 7)

/-- A trailing region made of a fully readable header with valid magic
declaring an 8-byte payload, followed by only 3 bytes. -/
def c3_tail : List Nat := encodeHeader ⟨VBP_MAGIC, 1, 1, 8, 2⟩ ++ [9, 9, 9]

/-- WAL image: one fully valid 28-byte frame, then the partial frame. -/
def c3_file : List Nat := encodeFrames [c3_frame] ++ c3_tail

/-- One valid 536-byte upsert frame (id plus 128 floats). -/
def c8_frame : RequestHeader × List Nat :=
  (⟨VBP_MAGIC, 1, 1, 520, 7⟩, List.replicate 520 3)

/-- The 4096-byte WAL image left by a clean shutdown after one batch
flush of `c8_frame`: the frame followed by the 3560 zero padding bytes
of the sector-aligned write. -/
def c8_file : List Nat := encodeFrames [c8_frame] ++ List.replicate 3560 0

/-- Search payload A: 512 zero bytes (128 zero floats). -/
def c2_payload1 : List Nat := List.replicate 512 0

/-- Search payload B: first byte 63, then 511 zero bytes. -/
def c2_payload2 : List Nat := 63 :: List.replicate 511 0

/-- A search frame (opcode 5) with a 512-byte query payload. -/
def c2_search_frame (p : List Nat) : List Nat :=
  encodeFrame ⟨VBP_MAGIC, 1, 5, 512, 77⟩ p

/-- Query bytes for the saturation counterexample: 32 times i8 value
127. -/
def c5_q : List Int := List.replicate 32 127

/-- Database bytes for the saturation counterexample: 32 times u8
value 255. -/
def c5_v : List Int := List.replicate 32 255

/-! ### Protocol lemmas -/

theorem getD_replicate (n i a d : Nat) :
    (List.replicate n a).getD i d = if i < n then a else d := by
  induction n generalizing i with
  | zero => simp [List.getD]
  | succ n ih =>
    cases i with
    | zero => simp [List.replicate_succ, List.getD_cons_zero]
    | succ i =>
      rw [List.replicate_succ, List.getD_cons_succ, ih i]
      simp [Nat.succ_lt_succ_iff]

theorem encodeHeader_length (h : RequestHeader) :
    (encodeHeader h).length = 16 := by
  simp [encodeHeader, le16, le32, le64]

theorem decodeHeader_encodeHeader (h : RequestHeader) (r : List Nat)
    (hw : WfHeader h) : decodeHeader (encodeHeader h ++ r) = h := by
  obtain ⟨m, v, o, p, i⟩ := h
  obtain ⟨h1, h2, h3, h4, h5⟩ := hw
  simp only [encodeHeader, le16, le32, le64, decodeHeader,
    List.cons_append, List.nil_append, List.getD_cons_zero,
    List.getD_cons_succ] at *
  refine RequestHeader.mk.injEq .. ▸ ⟨?_, ?_, ?_, ?_, ?_⟩ <;> omega

theorem encodeFrame_length (f : RequestHeader × List Nat)
    (hf : ValidFrame f) :
    (encodeFrame f.1 f.2).length = 16 + f.1.payload_len := by
  obtain ⟨hw, hm, hl⟩ := hf
  simp [encodeFrame, encodeHeader_length, hl]

/-! ### WAL replay lemmas -/

theorem walReplay_short (file : List Nat) (h : file.length < 16) :
    walReplay file = ([], none) := by
  rw [walReplay]
  simp [h]

theorem walReplay_badMagic (file : List Nat) (h16 : 16 ≤ file.length)
    (hm : (decodeHeader file).magic ≠ VBP_MAGIC) :
    walReplay file = ([], some 0) := by
  rw [walReplay]
  have h1 : ¬ file.length < 16 := by omega
  simp [h1, hm]

theorem walReplay_shortPayload (file : List Nat) (h16 : 16 ≤ file.length)
    (hm : (decodeHeader file).magic = VBP_MAGIC)
    (hp : file.length - 16 < (decodeHeader file).payload_len) :
    walReplay file = ([], some 16) := by
  rw [walReplay]
  have h1 : ¬ file.length < 16 := by omega
  simp [h1, hm, hp]

theorem drop16_encodeFrame (f : RequestHeader × List Nat) (r : List Nat) :
    (encodeFrame f.1 f.2 ++ r).drop 16 = f.2 ++ r := by
  rw [encodeFrame, List.append_assoc]
  conv_lhs =>
    rw [show (16 : Nat) = (encodeHeader f.1).length from
      (encodeHeader_length f.1).symm]
  exact List.drop_left _ _

theorem walReplay_frame (f : RequestHeader × List Nat) (hf : ValidFrame f)
    (r : List Nat) :
    walReplay (encodeFrame f.1 f.2 ++ r) =
      (f :: (walReplay r).1,
        (walReplay r).2.map (· + (16 + f.1.payload_len))) := by
  obtain ⟨hw, hm, hl⟩ := hf
  have hlen : (encodeFrame f.1 f.2 ++ r).length =
      16 + f.1.payload_len + r.length := by
    simp [encodeFrame, encodeHeader_length, hl]
    omega
  have hdec : decodeHeader (encodeFrame f.1 f.2 ++ r) = f.1 := by
    rw [encodeFrame, List.append_assoc]
    exact decodeHeader_encodeHeader f.1 (f.2 ++ r) hw
  have hdrop : (encodeFrame f.1 f.2 ++ r).drop 16 = f.2 ++ r :=
    drop16_encodeFrame f r
  have htake : (f.2 ++ r).take f.1.payload_len = f.2 := by
    rw [← hl]
    exact List.take_left _ _
  have hdropAll : (encodeFrame f.1 f.2 ++ r).drop (16 + f.1.payload_len) = r := by
    rw [← List.drop_drop, hdrop, ← hl]
    exact List.drop_left _ _
  rw [walReplay]
  rw [if_neg (by omega)]
  simp only [hdec, hm, ne_eq, not_true_eq_false, if_false, hlen]
  rw [if_neg (by omega)]
  simp only [hdrop, htake, hdropAll]

theorem walReplay_frames (fs : List (RequestHeader × List Nat))
    (h : ∀ f ∈ fs, ValidFrame f) (t : List Nat) :
    walReplay (encodeFrames fs ++ t) =
      (fs ++ (walReplay t).1,
        (walReplay t).2.map (· + (encodeFrames fs).length)) := by
  induction fs with
  | nil =>
    simp only [encodeFrames, List.map_nil, List.flatten_nil,
      List.nil_append, List.length_nil]
    have h2 : (walReplay t).2.map (· + 0) = (walReplay t).2 := by
      cases (walReplay t).2 <;> simp
    rw [h2]
  | cons f fs ih =>
    have hf : ValidFrame f := h f (List.mem_cons_self f fs)
    have hfs : ∀ g ∈ fs, ValidFrame g := fun g hg =>
      h g (List.mem_cons_of_mem f hg)
    have henc : encodeFrames (f :: fs) = encodeFrame f.1 f.2 ++ encodeFrames fs := by
      simp [encodeFrames]
    rw [henc, List.append_assoc, walReplay_frame f hf, ih hfs]
    have hlen2 : (encodeFrame f.1 f.2 ++ encodeFrames fs).length =
        (encodeFrames fs).length + (16 + f.1.payload_len) := by
      rw [List.length_append, encodeFrame_length f hf]
      omega
    cases hw : (walReplay t).2 <;>
      simp [hlen2, Nat.add_assoc, Nat.add_comm, Nat.add_left_comm]

/-! ### C3: recovery truncation offset -/

/-- C3 counterexample: a WAL whose last region is a valid-magic header
followed by a short payload.  The last fully valid frame ends at byte
28, but recovery truncates to byte 44: the 16 header bytes of the
partial frame survive, so the claim that the file is cut to the end of
the last fully valid frame (and that the partial frame contributes no
bytes) is false on this input. -/
theorem c3_counterexample :
    (walReplay c3_file).2 = some 44 ∧
    (walReplay c3_file).2 ≠ some 28 ∧
    (encodeFrames [c3_frame]).length = 28 := by
  have h1 := walReplay_frames [c3_frame] (by decide) c3_tail
  have h2 : walReplay c3_tail = ([], some 16) := by
    apply walReplay_shortPayload <;> decide
  rw [c3_file, h1, h2]
  refine ⟨?_, ?_, by decide⟩ <;> simp [Option.map] <;> decide

/-- C3 amended: on the first invalid magic the file is truncated to
exactly the end of the last fully valid frame; on a short payload read
after a fully read valid-magic header it is truncated to the end of
the last fully valid frame plus the 16 surviving header bytes; when
fewer than 16 bytes remain the replay stops cleanly and nothing is
truncated. -/
theorem c3_truncation_amended (fs : List (RequestHeader × List Nat))
    (t : List Nat) (h : ∀ f ∈ fs, ValidFrame f) :
    (t.length < 16 → (walReplay (encodeFrames fs ++ t)).2 = none) ∧
    (16 ≤ t.length → (decodeHeader t).magic ≠ VBP_MAGIC →
      (walReplay (encodeFrames fs ++ t)).2 = some (encodeFrames fs).length) ∧
    (16 ≤ t.length → (decodeHeader t).magic = VBP_MAGIC →
      t.length - 16 < (decodeHeader t).payload_len →
      (walReplay (encodeFrames fs ++ t)).2 =
        some ((encodeFrames fs).length + 16)) := by
  refine ⟨?_, ?_, ?_⟩
  · intro ht
    rw [walReplay_frames fs h t, walReplay_short t ht]
    simp
  · intro h16 hm
    rw [walReplay_frames fs h t, walReplay_badMagic t h16 hm]
    simp
  · intro h16 hm hp
    rw [walReplay_frames fs h t, walReplay_shortPayload t h16 hm hp]
    simp [Nat.add_comm]

/-- Witness: the amended statement applied to one valid frame and a
16-byte zero tail (invalid magic). -/
theorem c3_truncation_amended_witness :
    (∀ f ∈ [c3_frame], ValidFrame f) ∧
    16 ≤ (List.replicate 16 0 : List Nat).length ∧
    (decodeHeader (List.replicate 16 0)).magic ≠ VBP_MAGIC ∧
    (walReplay (encodeFrames [c3_frame] ++ List.replicate 16 0)).2 =
      some (encodeFrames [c3_frame]).length :=
  ⟨by decide, by decide, by decide,
    (c3_truncation_amended [c3_frame] (List.replicate 16 0) (by decide)).2.1
      (by decide) (by decide)⟩

/-! ### C8: WAL write offset alignment -/

/-- C8: after the normal clean-shutdown WAL image `c8_file` (one valid
536-byte frame inside a 4096-byte sector-aligned batch), boot recovery
reads the zero padding as an invalid magic and truncates to offset
536; the appender (whose cursor the truncation reset) then submits the
next batch WAL write at offset 536, which is not a multiple of
4096. -/
theorem c8_unaligned_offset_after_recovery :
    (walReplay c8_file).2 = some 536 ∧
    c8_file.length = 4096 ∧
    ((((WalManager.new c8_file.length).truncate 536).write_entry 4096).1 = 536) ∧
    ¬ (536 % 4096 = 0) := by
  have hv : ValidFrame c8_frame := by
    refine ⟨by decide, by decide, ?_⟩
    show (List.replicate 520 3).length = 520
    rw [List.length_replicate]
  have h1 := walReplay_frames [c8_frame]
    (fun f hf => (List.mem_singleton.mp hf) ▸ hv) (List.replicate 3560 0)
  have h2 : walReplay (List.replicate 3560 0) = ([], some 0) := by
    apply walReplay_badMagic
    · rw [List.length_replicate]
      norm_num
    · simp only [decodeHeader, getD_replicate]
      norm_num [VBP_MAGIC]
  have hlen : (encodeFrames [c8_frame]).length = 536 := by
    simp only [encodeFrames, List.map_cons, List.map_nil, List.flatten_cons,
      List.flatten_nil, List.append_nil]
    rw [encodeFrame_length c8_frame hv]
    decide
  have hflen : c8_file.length = 4096 := by
    rw [c8_file, List.length_append, List.length_replicate, hlen]
  refine ⟨?_, hflen, by rfl, by decide⟩
  rw [c8_file, h1, h2]
  simp only [Option.map_some, hlen]
  norm_num

/-! ### C5: integer kernel equivalence -/

/-- C5: on 32 maximal byte pairs the pair sums inside
`_mm256_maddubs_epi16` exceed the i16 range and saturate (each pair
255 * 127 + 255 * 127 = 64770 is clamped to 32767), so the AVX2 kernel
returns -524272 while the scalar reference returns -1036320.  The
claimed exact equivalence fails, contradicting both the specification
law and the source comment stating that the widening cascade prevents
maddubs saturation. -/
theorem c5_avx2_scalar_divergence :
    scalar_dot_u8 c5_q c5_v = -1036320 ∧
    dot_product_u8_avx2 c5_q c5_v = -524272 ∧
    dot_product_u8_avx2 c5_q c5_v ≠ scalar_dot_u8 c5_q c5_v := by
  have hs : scalar_dot_u8 c5_q c5_v = -1036320 := by decide
  have hc : avx2_chunks (List.zip c5_v c5_q) 0 = (524272, []) := by
    rw [avx2_chunks, if_pos (by decide), avx2_chunks, if_neg (by decide)]
    decide
  have ha : dot_product_u8_avx2 c5_q c5_v = -524272 := by
    simp only [dot_product_u8_avx2]
    rw [hc]
    decide
  exact ⟨hs, ha, by rw [ha, hs]; decide⟩

/-! ### C4: arena row count versus max_elements -/

/-- C4: three inserts of the same external identifier into an index
with `max_elements = 2`.  The capacity guard of `HnswIndex::insert`
tests `map.len() >= max_elements`, and a repeated identifier never
grows the map, so every insert passes the guard and the arena reaches
3 logical rows, exceeding the pre-allocated capacity of 2 (past which
the visited-epoch and link tables, both sized `max_elements`, are
indexed out of bounds). -/
theorem c4_rows_exceed_capacity :
    (List.foldl (hnsw_insert_rows 2) ⟨0, []⟩ [7, 7, 7]).rows = 3 ∧
    ¬ ((List.foldl (hnsw_insert_rows 2) ⟨0, []⟩ [7, 7, 7]).rows ≤ 2) := by
  decide

/-! ### C6: bidirectional connection before pruning -/

/-- C6: a reachable full adjacency row (layer 0 has 32 slots, here
occupied by nodes 0..31).  `add_neighbor` for a new node 33 scans the
row, finds no sentinel and no match, and returns without writing, so
the reverse edge from the candidate back to the new node is silently
dropped rather than added-then-pruned; and `prune_connections` never
changes a row it is given (its neighbor collection from the
`max_links`-slot row can never exceed `max_links`). -/
theorem c6_reverse_edge_dropped_when_full :
    add_neighbor (List.range 32) 33 = List.range 32 ∧
    33 ∉ add_neighbor (List.range 32) 33 ∧
    prune_connections (List.range 32) (fun n => -(n : Int)) 32 = List.range 32 := by
  decide

/-! ### C10: try_add rejection leaves the accumulator unchanged -/

/-- C10: when the cursor plus the data length exceeds the capacity,
`BatchAccumulator::try_add` returns the error before any mutation:
buffer, cursor and tag list are exactly the state before the call. -/
theorem c10_try_add_reject_unchanged (b : BatchAccumulator)
    (data : List Nat) (tag : Nat) (h : b.cursor + data.length > b.capacity) :
    b.try_add data tag = (false, b) := by
  simp [BatchAccumulator.try_add, h]

/-- Witness: a 4-byte accumulator at cursor 3 rejects a 2-byte append
and is returned unchanged. -/
theorem c10_try_add_reject_unchanged_witness :
    (BatchAccumulator.mk [0, 0, 0, 0] 3 [5] 4).cursor +
        ([1, 2] : List Nat).length >
      (BatchAccumulator.mk [0, 0, 0, 0] 3 [5] 4).capacity ∧
    (BatchAccumulator.mk [0, 0, 0, 0] 3 [5] 4).try_add [1, 2] 9 =
      (false, BatchAccumulator.mk [0, 0, 0, 0] 3 [5] 4) :=
  ⟨by decide,
    c10_try_add_reject_unchanged (BatchAccumulator.mk [0, 0, 0, 0] 3 [5] 4)
      [1, 2] 9 (by decide)⟩

/-! ### C7: framing lemmas -/

theorem parse_avail_blocked (st : FrameSt) (hd : st.dead = false)
    (hb : BlockedBuf st.buf) : parse_avail st = st := by
  rw [parse_avail]
  rcases hb with h16 | ⟨hm, hp⟩
  · simp [hd, h16]
  · simp [hd, hm, hp]

theorem parse_avail_step (f : RequestHeader × List Nat) (hf : ValidFrame f)
    (P : List (RequestHeader × List Nat)) (r : List Nat) (s : Bool) :
    parse_avail ⟨P, encodeFrame f.1 f.2 ++ r, false, s⟩ =
      parse_avail ⟨P ++ [f], r, false, s⟩ := by
  obtain ⟨hw, hm, hl⟩ := hf
  have hlen : (encodeFrame f.1 f.2 ++ r).length =
      16 + f.1.payload_len + r.length := by
    simp [encodeFrame, encodeHeader_length, hl]
    omega
  have hdec : decodeHeader (encodeFrame f.1 f.2 ++ r) = f.1 := by
    rw [encodeFrame, List.append_assoc]
    exact decodeHeader_encodeHeader f.1 (f.2 ++ r) hw
  have hdrop : (encodeFrame f.1 f.2 ++ r).drop 16 = f.2 ++ r :=
    drop16_encodeFrame f r
  have htake : (f.2 ++ r).take f.1.payload_len = f.2 := by
    rw [← hl]
    exact List.take_left _ _
  have hdropAll : (encodeFrame f.1 f.2 ++ r).drop (16 + f.1.payload_len) = r := by
    rw [← List.drop_drop, hdrop, ← hl]
    exact List.drop_left _ _
  conv_lhs => rw [parse_avail]
  simp only [hdec, hm, hlen, ne_eq, not_true_eq_false, if_false]
  rw [if_neg (by simp), if_neg (by omega), hdrop, htake, hdropAll]
  rw [if_neg (by omega), Prod.mk.eta]

theorem decodeHeader_front (b q : List Nat) (f : RequestHeader × List Nat)
    (hf : ValidFrame f) (rest2 : List Nat)
    (hbq : b ++ q = encodeFrame f.1 f.2 ++ rest2) (h16 : 16 ≤ b.length) :
    decodeHeader b = f.1 := by
  have ht : b.take 16 = encodeHeader f.1 := by
    have h1 : (b ++ q).take 16 = b.take 16 :=
      List.take_append_of_le_length h16
    have h2 : (encodeFrame f.1 f.2 ++ rest2).take 16 = encodeHeader f.1 := by
      rw [encodeFrame, List.append_assoc]
      conv_lhs =>
        rw [show (16 : Nat) = (encodeHeader f.1).length from
          (encodeHeader_length f.1).symm]
      exact List.take_left _ _
    rw [← h1, hbq, h2]
  have hsplit : b = encodeHeader f.1 ++ b.drop 16 := by
    conv_lhs => rw [← List.take_append_drop 16 b, ht]
  rw [hsplit]
  exact decodeHeader_encodeHeader f.1 _ hf.1

theorem feed_read_cons (st : FrameSt) (b : Nat) (rest : List Nat)
    (hd : st.dead = false) (hs : ¬ (RECV_CAP - st.buf.length = 0)) :
    feed_read st (b :: rest) =
      feed_read
        (parse_avail
          { st with buf := st.buf ++ (b :: rest).take (min (RECV_CAP - st.buf.length) (b :: rest).length) })
        ((b :: rest).drop (min (RECV_CAP - st.buf.length) (b :: rest).length)) := by
  conv_lhs => rw [feed_read]
  simp [hd, hs]

theorem feed_read_stall (st : FrameSt) (b : Nat) (rest : List Nat)
    (hd : st.dead = false) (hs : RECV_CAP - st.buf.length = 0) :
    feed_read st (b :: rest) = { st with stalled := true } := by
  conv_lhs => rw [feed_read]
  simp [hd, hs]

theorem feed_read_nil (st : FrameSt) : feed_read st [] = st := by
  rw [feed_read]

theorem feed_read_progress (st : FrameSt) (chunk : List Nat)
    (hne : chunk ≠ []) (hd : st.dead = false)
    (hs : ¬ (RECV_CAP - st.buf.length = 0)) :
    feed_read st chunk =
      feed_read
        (parse_avail
          { st with buf := st.buf ++ chunk.take (min (RECV_CAP - st.buf.length) chunk.length) })
        (chunk.drop (min (RECV_CAP - st.buf.length) chunk.length)) := by
  cases chunk with
  | nil => exact absurd rfl hne
  | cons b rest => exact feed_read_cons st b rest hd hs

theorem feed_read_stall_of_ne (st : FrameSt) (chunk : List Nat)
    (hne : chunk ≠ []) (hd : st.dead = false)
    (hs : RECV_CAP - st.buf.length = 0) :
    feed_read st chunk = { st with stalled := true } := by
  cases chunk with
  | nil => exact absurd rfl hne
  | cons b rest => exact feed_read_stall st b rest hd hs

/-- Progress step of `feed_read` stated on an explicit state. -/
theorem feed_read_progress2 (P : List (RequestHeader × List Nat))
    (bf chunk : List Nat) (s : Bool) (hne : chunk ≠ [])
    (hs : ¬ (RECV_CAP - bf.length = 0)) :
    feed_read ⟨P, bf, false, s⟩ chunk =
      feed_read
        (parse_avail ⟨P, bf ++ chunk.take (min (RECV_CAP - bf.length) chunk.length), false, s⟩)
        (chunk.drop (min (RECV_CAP - bf.length) chunk.length)) := by
  simpa using feed_read_progress ⟨P, bf, false, s⟩ chunk hne rfl hs

/-- Stall step of `feed_read` stated on an explicit state. -/
theorem feed_read_stall2 (P : List (RequestHeader × List Nat))
    (bf chunk : List Nat) (s : Bool) (hne : chunk ≠ [])
    (hs : RECV_CAP - bf.length = 0) :
    feed_read ⟨P, bf, false, s⟩ chunk = ⟨P, bf, false, true⟩ := by
  simpa using feed_read_stall_of_ne ⟨P, bf, false, s⟩ chunk hne rfl hs

/-- C7 counterexample: a single valid frame of 65537 bytes (one more
than the receive buffer), delivered as one split.  The reads fill the
buffer with the first 65536 bytes, the framing loop cannot complete
the frame, `submit_read_at` refuses to arm a further read
(`offset >= buf.len()`), and the connection stalls with zero frames
parsed, where the claim promises exactly one frame. -/
theorem c7_oversized_frame_counterexample :
    c7_big_frame.length = 65537 ∧
    ValidFrame (c7_big_header, List.replicate 65521 0) ∧
    (feed_splits FrameSt.init [c7_big_frame]).parsed = [] ∧
    (feed_splits FrameSt.init [c7_big_frame]).stalled = true := by
  have hw : WfHeader c7_big_header := by decide
  have hvf : ValidFrame (c7_big_header, List.replicate 65521 0) := by
    refine ⟨hw, by decide, ?_⟩
    show (List.replicate 65521 (0 : Nat)).length = c7_big_header.payload_len
    rw [List.length_replicate]
    rfl
  have hsplit : c7_big_frame =
      encodeHeader c7_big_header ++ List.replicate 65521 0 := by
    rw [c7_big_frame, encodeFrame]
  have hlen : c7_big_frame.length = 65537 := by
    rw [hsplit, List.length_append, encodeHeader_length, List.length_replicate]
  have hne : c7_big_frame ≠ [] := by
    intro h
    rw [h] at hlen
    exact absurd hlen (by decide)
  have ht : min (RECV_CAP - ([] : List Nat).length) c7_big_frame.length = 65536 := by
    rw [hlen]
    decide
  have htake : c7_big_frame.take 65536 =
      encodeHeader c7_big_header ++ List.replicate 65520 0 := by
    rw [hsplit, List.take_append_eq_append_take,
      List.take_of_length_le (by rw [encodeHeader_length]; omega),
      encodeHeader_length, List.take_replicate]
    norm_num
  have hdrop : c7_big_frame.drop 65536 = [0] := by
    rw [hsplit, List.drop_append_eq_append_drop,
      List.drop_eq_nil_of_le (by rw [encodeHeader_length]; omega),
      encodeHeader_length, List.drop_replicate]
    norm_num
  have hbuf1len : (encodeHeader c7_big_header ++ List.replicate 65520 (0 : Nat)).length = 65536 := by
    rw [List.length_append, encodeHeader_length, List.length_replicate]
  have hdec1 : decodeHeader (encodeHeader c7_big_header ++ List.replicate 65520 (0 : Nat)) = c7_big_header :=
    decodeHeader_encodeHeader _ _ hw
  have hblocked : BlockedBuf (encodeHeader c7_big_header ++ List.replicate 65520 0) := by
    right
    rw [hdec1, hbuf1len]
    exact ⟨by decide, by decide⟩
  have h0 : FrameSt.init = (⟨[], [], false, false⟩ : FrameSt) := rfl
  have h1 : feed_splits FrameSt.init [c7_big_frame] =
      feed_read ⟨[], [], false, false⟩ c7_big_frame := by
    rw [feed_splits, List.foldl_cons, List.foldl_nil, h0]
  have h2 := feed_read_progress2 [] [] c7_big_frame false hne (by decide)
  rw [ht, htake, List.nil_append] at h2
  have h3 : parse_avail
      (⟨[], encodeHeader c7_big_header ++ List.replicate 65520 0, false, false⟩ : FrameSt) =
      ⟨[], encodeHeader c7_big_header ++ List.replicate 65520 0, false, false⟩ :=
    parse_avail_blocked _ rfl hblocked
  rw [h3, hdrop] at h2
  have h4 : feed_read
      (⟨[], encodeHeader c7_big_header ++ List.replicate 65520 0, false, false⟩ : FrameSt) [0] =
      ⟨[], encodeHeader c7_big_header ++ List.replicate 65520 0, false, true⟩ := by
    apply feed_read_stall2
    · simp
    · rw [hbuf1len]
      rfl
  rw [h4] at h2
  rw [h1, h2]
  exact ⟨hlen, hvf, rfl, rfl⟩

/-- Running the framing loop over a buffer that, together with the
undelivered bytes `q`, spells a valid frame stream: the loop
recognises exactly the frames fully contained in the buffer, in order,
and leaves a blocked remainder shorter than the next frame. -/
theorem parse_avail_run (fs : List (RequestHeader × List Nat)) :
    ∀ (b q : List Nat) (P : List (RequestHeader × List Nat)) (s : Bool),
      (∀ f ∈ fs, ValidFrame f) → b ++ q = encodeFrames fs →
      ∃ gs hs b1,
        fs = gs ++ hs ∧
        parse_avail ⟨P, b, false, s⟩ = ⟨P ++ gs, b1, false, s⟩ ∧
        b1 ++ q = encodeFrames hs ∧
        (hs = [] → b1 = []) ∧
        (∀ f2 hs2, hs = f2 :: hs2 → b1.length < 16 + f2.1.payload_len) := by
  induction fs with
  | nil =>
    intro b q P s hval hbq
    have hb : b = [] := by
      have : b ++ q = [] := by simpa [encodeFrames] using hbq
      exact List.append_eq_nil.mp this |>.1
    subst hb
    refine ⟨[], [], [], by simp, ?_, by simpa using hbq, fun _ => rfl, by simp⟩
    rw [parse_avail_blocked _ rfl (Or.inl (by simp))]
    simp
  | cons f fs2 ih =>
    intro b q P s hval hbq
    have hvf : ValidFrame f := hval f (List.mem_cons_self f fs2)
    have hvfs2 : ∀ g ∈ fs2, ValidFrame g := fun g hg =>
      hval g (List.mem_cons_of_mem f hg)
    have hEnc : encodeFrames (f :: fs2) =
        encodeFrame f.1 f.2 ++ encodeFrames fs2 := by
      simp [encodeFrames]
    by_cases hb16 : b.length < 16
    · refine ⟨[], f :: fs2, b, by simp, ?_, hbq, by simp, ?_⟩
      · rw [parse_avail_blocked _ rfl (Or.inl hb16)]
        simp
      · intro f2 hs2 heq
        have : f2 = f := by
          injection heq with h1 _
          exact h1.symm ▸ rfl
        omega
    · have hdec : decodeHeader b = f.1 :=
        decodeHeader_front b q f hvf (encodeFrames fs2)
          (by rw [hbq, hEnc]) (Nat.le_of_not_lt hb16)
      by_cases hbfull : b.length < 16 + f.1.payload_len
      · refine ⟨[], f :: fs2, b, by simp, ?_, hbq, by simp, ?_⟩
        · refine parse_avail_blocked _ rfl (Or.inr ⟨?_, ?_⟩) |>.trans ?_
          · rw [hdec]
            exact hvf.2.1
          · rw [hdec]
            exact hbfull
          · simp
        · intro f2 hs2 heq
          have h1 : f2 = f := by
            injection heq with h1 _
            exact h1.symm ▸ rfl
          rw [h1]
          exact hbfull
      · have hlenf : (encodeFrame f.1 f.2).length = 16 + f.1.payload_len :=
          encodeFrame_length f hvf
        have htk : b.take (16 + f.1.payload_len) = encodeFrame f.1 f.2 := by
          have h1 : (b ++ q).take (16 + f.1.payload_len) =
              b.take (16 + f.1.payload_len) :=
            List.take_append_of_le_length (by omega)
          have h2 : (encodeFrame f.1 f.2 ++ encodeFrames fs2).take
              (16 + f.1.payload_len) = encodeFrame f.1 f.2 := by
            conv_lhs =>
              rw [show 16 + f.1.payload_len = (encodeFrame f.1 f.2).length from
                hlenf.symm]
            exact List.take_left _ _
          rw [← h1, hbq, hEnc, h2]
        have hbsplit : b =
            encodeFrame f.1 f.2 ++ b.drop (16 + f.1.payload_len) := by
          conv_lhs => rw [← List.take_append_drop (16 + f.1.payload_len) b, htk]
        have hb2 : b.drop (16 + f.1.payload_len) ++ q = encodeFrames fs2 := by
          have h3 : encodeFrame f.1 f.2 ++
              (b.drop (16 + f.1.payload_len) ++ q) =
              encodeFrame f.1 f.2 ++ encodeFrames fs2 := by
            rw [← List.append_assoc, ← hbsplit, hbq, hEnc]
          exact List.append_cancel_left h3
        have hstep : parse_avail ⟨P, b, false, s⟩ =
            parse_avail ⟨P ++ [f], b.drop (16 + f.1.payload_len), false, s⟩ := by
          conv_lhs => rw [hbsplit]
          exact parse_avail_step f hvf P _ s
        obtain ⟨gs2, hs, b1, hfs2, hpar, hrest, hnil, hhd⟩ :=
          ih (b.drop (16 + f.1.payload_len)) q (P ++ [f]) s hvfs2 hb2
        refine ⟨f :: gs2, hs, b1, ?_, ?_, hrest, hnil, hhd⟩
        · rw [hfs2]
          simp
        · rw [hstep, hpar]
          simp

/-- One chunk of reads preserves the delivery invariant (strong
induction on the chunk length, since each read consumes at least one
byte when space remains). -/
theorem feed_read_keeps_inv :
    ∀ (n : Nat) (chunk : List Nat), chunk.length ≤ n →
      ∀ (st : FrameSt) (rest : List Nat)
        (fs : List (RequestHeader × List Nat)),
        (∀ f ∈ fs, ValidFrame f ∧ FitsFrame f) →
        FrameInv fs st (chunk ++ rest) →
        FrameInv fs (feed_read st chunk) rest := by
  intro n
  induction n with
  | zero =>
    intro chunk hle st rest fs hval hinv
    have hch : chunk = [] := List.length_eq_zero.mp (Nat.le_zero.mp hle)
    subst hch
    rw [feed_read_nil]
    simpa using hinv
  | succ n ih =>
    intro chunk hle st rest fs hval hinv
    cases chunk with
    | nil =>
      rw [feed_read_nil]
      simpa using hinv
    | cons bhead btail =>
      obtain ⟨hdead, hstall, gs, hs, hfs, hparsed, hbuf, hnil, hhd⟩ := hinv
      obtain ⟨P, bf, dd, sl⟩ := st
      simp only at hdead hstall hparsed hbuf hnil hhd
      subst hdead
      subst hstall
      have hspace : ¬ (RECV_CAP - bf.length = 0) := by
        cases hs with
        | nil =>
          have hbf : bf = [] := hnil rfl
          rw [hbf]
          decide
        | cons f2 hs2 =>
          have h1 : bf.length < 16 + f2.1.payload_len := hhd f2 hs2 rfl
          have hm : f2 ∈ fs := by
            rw [hfs]
            exact List.mem_append_right _ (List.mem_cons_self _ _)
          have h2 : 16 + f2.1.payload_len ≤ RECV_CAP := (hval f2 hm).2
          omega
      have hprog := feed_read_progress2 P bf (bhead :: btail) false
        (by simp) hspace
      have hq : (bf ++ (bhead :: btail).take
            (min (RECV_CAP - bf.length) (bhead :: btail).length)) ++
          ((bhead :: btail).drop
            (min (RECV_CAP - bf.length) (bhead :: btail).length) ++ rest) =
          encodeFrames hs := by
        rw [List.append_assoc, ← List.append_assoc ((bhead :: btail).take _),
          List.take_append_drop]
        exact hbuf
      have hvhs : ∀ g ∈ hs, ValidFrame g := by
        intro g hg
        have hm : g ∈ fs := by
          rw [hfs]
          exact List.mem_append_right _ hg
        exact (hval g hm).1
      obtain ⟨gs2, hs2, b1, hsplit2, hpar, hrest2, hnil2, hhd2⟩ :=
        parse_avail_run hs _ _ P false hvhs hq
      rw [hprog, hpar]
      have hmin1 : 1 ≤ min (RECV_CAP - bf.length) (bhead :: btail).length := by
        simp only [List.length_cons]
        omega
      apply ih
      · simp only [List.length_drop, List.length_cons] at hle ⊢
        omega
      · exact hval
      · refine ⟨rfl, rfl, gs ++ gs2, hs2, ?_, ?_, hrest2, hnil2, hhd2⟩
        · rw [hfs, hsplit2, List.append_assoc]
        · rw [hparsed]

/-- Delivering a list of splits preserves the invariant. -/
theorem feed_splits_keeps_inv :
    ∀ (ss : List (List Nat)) (st : FrameSt) (rest : List Nat)
      (fs : List (RequestHeader × List Nat)),
      (∀ f ∈ fs, ValidFrame f ∧ FitsFrame f) →
      FrameInv fs st (ss.flatten ++ rest) →
      FrameInv fs (feed_splits st ss) rest := by
  intro ss
  induction ss with
  | nil =>
    intro st rest fs hval hinv
    simpa [feed_splits] using hinv
  | cons c ss ih =>
    intro st rest fs hval hinv
    have h1 : feed_splits st (c :: ss) = feed_splits (feed_read st c) ss := by
      rw [feed_splits, feed_splits, List.foldl_cons]
    rw [h1]
    apply ih
    · exact hval
    · apply feed_read_keeps_inv c.length c le_rfl
      · exact hval
      · have : c ++ (ss.flatten ++ rest) = (c :: ss).flatten ++ rest := by
          simp
        rw [this]
        exact hinv

/-- C7 amended: for frames that individually fit the 65536-byte
receive buffer, any contiguous split delivery of their concatenation
makes the framing loop recognise exactly the k frames, in order, with
an empty leftover window and a live connection.  (The counterexample
shows the size bound is necessary: a frame larger than the receive
buffer is never parsed and the connection stalls.) -/
theorem c7_framing_round_trip_amended
    (fs : List (RequestHeader × List Nat)) (splits : List (List Nat))
    (hv : ∀ f ∈ fs, ValidFrame f ∧ FitsFrame f)
    (hsplit : splits.flatten = encodeFrames fs) :
    (feed_splits FrameSt.init splits).parsed = fs ∧
    (feed_splits FrameSt.init splits).buf = [] ∧
    (feed_splits FrameSt.init splits).dead = false ∧
    (feed_splits FrameSt.init splits).stalled = false := by
  have hinit : FrameInv fs FrameSt.init (splits.flatten ++ []) := by
    refine ⟨rfl, rfl, [], fs, rfl, rfl, ?_, ?_, ?_⟩
    · show ([] : List Nat) ++ (splits.flatten ++ []) = encodeFrames fs
      simp [hsplit]
    · intro _
      rfl
    · intro f2 hs2 _
      show ([] : List Nat).length < 16 + f2.1.payload_len
      simp
  have hfin := feed_splits_keeps_inv splits FrameSt.init [] fs hv hinit
  obtain ⟨hdead, hstall, gs, hs, hfs, hparsed, hbuf, hnil, hhd⟩ := hfin
  cases hs with
  | nil =>
    refine ⟨?_, hnil rfl, hdead, hstall⟩
    rw [hparsed, hfs]
    simp
  | cons f2 hs2 =>
    exfalso
    have h1 := hhd f2 hs2 rfl
    have hm : f2 ∈ fs := by
      rw [hfs]
      exact List.mem_append_right _ (List.mem_cons_self _ _)
    have hvf2 : ValidFrame f2 := (hv f2 hm).1
    have h3 : encodeFrames (f2 :: hs2) =
        encodeFrame f2.1 f2.2 ++ encodeFrames hs2 := by
      simp [encodeFrames]
    rw [List.append_nil, h3] at hbuf
    have h4 := congrArg List.length hbuf
    rw [List.length_append, encodeFrame_length f2 hvf2] at h4
    omega

/-- Witness: one 20-byte frame delivered in a 10-byte and a 10-byte
split parses to exactly that frame. -/
theorem c7_framing_round_trip_amended_witness :
    (∀ f ∈ c7_wfs, ValidFrame f ∧ FitsFrame f) ∧
    c7_wsplits.flatten = encodeFrames c7_wfs ∧
    (feed_splits FrameSt.init c7_wsplits).parsed = c7_wfs :=
  ⟨by decide, by decide,
    (c7_framing_round_trip_amended c7_wfs c7_wsplits (by decide) (by decide)).1⟩

/-! ### C1: trace accounting lemmas -/

theorem countP_replicate (p : Obs → Bool) (n : Nat) (a : Obs) :
    (List.replicate n a).countP p = if p a then n else 0 := by
  induction n with
  | zero => simp
  | succ n ih =>
    rw [List.replicate_succ, List.countP_cons, ih]
    by_cases h : p a <;> simp [h]

theorem ok_acks_append (t1 t2 : List Obs) (c : Nat) :
    ok_upsert_acks (t1 ++ t2) c = ok_upsert_acks t1 c + ok_upsert_acks t2 c := by
  simp [ok_upsert_acks, List.countP_append]

theorem committed_append (t1 t2 : List Obs) (c : Nat) :
    committed_upserts (t1 ++ t2) c =
      committed_upserts t1 c + committed_upserts t2 c := by
  simp [committed_upserts]

theorem tn_refl (r : Reactor) : TraceNeutral r r :=
  ⟨[], by simp, by simp, by simp⟩

theorem tn_of_trace_eq {r1 r2 : Reactor} (h : r2.trace = r1.trace) :
    TraceNeutral r1 r2 :=
  ⟨[], by simp [h], by simp, by simp⟩

theorem tn_trans {r1 r2 r3 : Reactor} (h1 : TraceNeutral r1 r2)
    (h2 : TraceNeutral r2 r3) : TraceNeutral r1 r3 := by
  obtain ⟨e1, ht1, ha1, hc1⟩ := h1
  obtain ⟨e2, ht2, ha2, hc2⟩ := h2
  refine ⟨e1 ++ e2, ?_, ?_, ?_⟩
  · rw [ht2, ht1, List.append_assoc]
  · intro c
    rw [List.countP_append, ha1 c, ha2 c]
  · intro c
    rw [List.map_append, List.sum_append, hc1 c, hc2 c]

theorem tn_counts {r1 r2 : Reactor} (h : TraceNeutral r1 r2) (c : Nat) :
    ok_upsert_acks r2.trace c = ok_upsert_acks r1.trace c ∧
    committed_upserts r2.trace c = committed_upserts r1.trace c := by
  obtain ⟨e, ht, ha, hc⟩ := h
  constructor
  · rw [ht, ok_acks_append]
    have : ok_upsert_acks e c = 0 := ha c
    omega
  · rw [ht, committed_append]
    have : committed_upserts e c = 0 := hc c
    omega

theorem tn_emit_of {r1 r2 : Reactor} (o : Obs) (htr : r2.trace = r1.trace)
    (h1 : ∀ c, isOkUpsertAck c o = false)
    (h2 : ∀ c, committed_count c o = 0) :
    TraceNeutral r1 (emit r2 o) := by
  refine ⟨[o], ?_, ?_, ?_⟩
  · simp [emit, htr]
  · intro c
    simp [List.countP_cons, h1 c]
  · intro c
    simp [h2 c]

theorem isOk_ack_err (c c2 op req : Nat) :
    isOkUpsertAck c (Obs.ackPrepared c2 op STATUS_ERR req) = false := by
  simp [isOkUpsertAck, STATUS_ERR, STATUS_OK]

theorem isOk_ack_search (c c2 st req : Nat) :
    isOkUpsertAck c (Obs.ackPrepared c2 CMD_SEARCH st req) = false := by
  simp [isOkUpsertAck, CMD_SEARCH, CMD_UPSERT]

theorem tn_setConn (r : Reactor) (c : Nat) (cn : Conn) :
    TraceNeutral r (setConn r c cn) :=
  tn_of_trace_eq rfl

theorem tn_consume (r : Reactor) (c n : Nat) :
    TraceNeutral r (consume r c n) :=
  tn_of_trace_eq rfl

theorem submit_write_trace (r : Reactor) (c : Nat) :
    (submit_write r c).trace = r.trace := by
  unfold submit_write
  dsimp only
  repeat' split
  all_goals rfl

theorem tn_submit_write (r : Reactor) (c : Nat) :
    TraceNeutral r (submit_write r c) :=
  tn_of_trace_eq (submit_write_trace r c)

theorem tn_prepare_response_err (r : Reactor) (c op req : Nat) :
    TraceNeutral r (prepare_response r c op STATUS_ERR req) := by
  unfold prepare_response
  exact tn_emit_of _ rfl (fun c2 => isOk_ack_err c2 c op req) (fun c2 => rfl)

theorem tn_prepare_response_search (r : Reactor) (c st req : Nat) :
    TraceNeutral r (prepare_response r c CMD_SEARCH st req) := by
  unfold prepare_response
  exact tn_emit_of _ rfl (fun c2 => isOk_ack_search c2 c st req) (fun c2 => rfl)

theorem tn_flush_active (r : Reactor) : TraceNeutral r (flush_active r) := by
  unfold flush_active
  split
  · exact tn_refl r
  · split
    · exact tn_refl r
    · exact tn_emit_of _ rfl (fun c => rfl) (fun c => rfl)

theorem proc_frames_neutral : ∀ (fuel : Nat) (r : Reactor) (c : Nat),
    TraceNeutral r (proc_frames fuel r c) := by
  intro fuel
  induction fuel with
  | zero =>
    intro r c
    exact tn_refl r
  | succ fuel ih =>
    intro r c
    rw [proc_frames]
    by_cases hc1 : (getConn r c).dead = true
    · rw [if_pos hc1]
      exact tn_refl r
    · rw [if_neg hc1]
      by_cases hc2 : (getConn r c).buf.length < 16
      · rw [if_pos hc2]
        exact tn_refl r
      · rw [if_neg hc2]
        dsimp only
        by_cases hc3 : (decodeHeader (getConn r c).buf).magic ≠ VBP_MAGIC
        · rw [if_pos hc3]
          exact tn_setConn r c _
        · rw [if_neg hc3]
          by_cases hc4 : (getConn r c).buf.length <
              16 + (decodeHeader (getConn r c).buf).payload_len
          · rw [if_pos hc4]
            exact tn_refl r
          · rw [if_neg hc4]
            by_cases hc5 : (decodeHeader (getConn r c).buf).opcode = CMD_SEARCH
            · rw [if_pos hc5]
              exact tn_trans (tn_trans (tn_trans (tn_trans (tn_trans
                (tn_emit_of (Obs.searchExec c r.scratch_query) rfl
                  (fun c2 => rfl) (fun c2 => rfl))
                (tn_setConn _ _ _)) (tn_prepare_response_search _ _ _ _))
                (tn_submit_write _ _)) (tn_consume _ _ _)) (ih _ _)
            · rw [if_neg hc5]
              by_cases hc6 : (decodeHeader (getConn r c).buf).opcode = CMD_UPSERT
              · rw [if_pos hc6]
                by_cases hc7 : (r.active_batch.try_add
                    (List.take (16 + (decodeHeader (getConn r c).buf).payload_len)
                      (getConn r c).buf) c).1 = true
                · rw [if_pos hc7]
                  exact tn_trans (tn_trans (tn_trans (tn_of_trace_eq (by rfl))
                    (tn_setConn _ _ _)) (tn_consume _ _ _)) (ih _ _)
                · rw [if_neg hc7]
                  by_cases hc8 : r.flushing.isNone = true
                  · rw [if_pos hc8]
                    by_cases hc9 : ((flush_active r).active_batch.try_add
                        (List.take (16 + (decodeHeader (getConn r c).buf).payload_len)
                          (getConn r c).buf) c).1 = true
                    · rw [if_pos hc9]
                      exact tn_trans (tn_trans (tn_trans (tn_trans
                        (tn_flush_active r) (tn_of_trace_eq (by rfl)))
                        (tn_setConn _ _ _)) (tn_consume _ _ _)) (ih _ _)
                    · rw [if_neg hc9]
                      exact tn_trans (tn_trans (tn_trans (tn_trans (tn_trans
                        (tn_flush_active r) (tn_prepare_response_err _ _ _ _))
                        (tn_submit_write _ _)) (tn_setConn _ _ _))
                        (tn_consume _ _ _)) (ih _ _)
                  · rw [if_neg hc8]
                    exact tn_of_trace_eq rfl
              · rw [if_neg hc6]
                exact tn_trans (tn_trans (tn_trans (tn_trans
                  (tn_setConn _ _ _) (tn_prepare_response_err _ _ _ _))
                  (tn_submit_write _ _)) (tn_consume _ _ _)) (ih _ _)

theorem ingest_neutral : ∀ (fuel : Nat) (r : Reactor) (c : Nat)
    (chunk : List Nat), TraceNeutral r (ingest fuel r c chunk) := by
  intro fuel
  induction fuel with
  | zero =>
    intro r c chunk
    exact tn_refl r
  | succ fuel ih =>
    intro r c chunk
    simp only [ingest]
    split
    · exact tn_refl r
    · split
      · exact tn_refl r
      · split
        · exact tn_refl r
        · exact tn_trans (tn_trans (tn_setConn _ _ _)
            (proc_frames_neutral _ _ _)) (ih _ _ _)

theorem tn_handle_write_complete (r : Reactor) (c : Nat) :
    TraceNeutral r (handle_write_complete r c) := by
  unfold handle_write_complete
  dsimp only
  split
  · exact tn_refl r
  · exact tn_trans (tn_trans (tn_trans (tn_setConn _ _ _)
      (tn_submit_write _ _)) (tn_setConn _ _ _)) (proc_frames_neutral _ _ _)

theorem ack_step_trace (tags : List Nat) (r0 : Reactor) (idx : Nat) :
    (ack_step tags r0 idx).trace = r0.trace ++
      List.replicate (List.count idx tags)
        (Obs.ackPrepared idx CMD_UPSERT STATUS_OK 0) := by
  unfold ack_step
  dsimp only
  split
  · rename_i h
    rw [h]
    simp
  · split
    · rfl
    · rw [submit_write_trace]
      rfl

theorem ack_step_ok (tags : List Nat) (r0 : Reactor) (idx c : Nat) :
    ok_upsert_acks (ack_step tags r0 idx).trace c =
      ok_upsert_acks r0.trace c +
        (if idx = c then List.count idx tags else 0) := by
  rw [ack_step_trace, ok_acks_append]
  congr 1
  simp only [ok_upsert_acks, countP_replicate]
  by_cases h : idx = c <;>
    simp [h, isOkUpsertAck, CMD_UPSERT, STATUS_OK]

theorem ack_step_committed (tags : List Nat) (r0 : Reactor) (idx c : Nat) :
    committed_upserts (ack_step tags r0 idx).trace c =
      committed_upserts r0.trace c := by
  rw [ack_step_trace, committed_append]
  have h0 : committed_upserts
      (List.replicate (List.count idx tags)
        (Obs.ackPrepared idx CMD_UPSERT STATUS_OK 0)) c = 0 := by
    simp [committed_upserts, committed_count, List.map_replicate]
  omega

theorem ack_fold_ok_notmem (tags : List Nat) :
    ∀ (l : List Nat) (r0 : Reactor) (c : Nat), c ∉ l →
      ok_upsert_acks ((l.foldl (ack_step tags) r0).trace) c =
        ok_upsert_acks r0.trace c := by
  intro l
  induction l with
  | nil =>
    intro r0 c _
    rfl
  | cons a l ih =>
    intro r0 c h
    rw [List.foldl_cons, ih _ c (fun hm => h (List.mem_cons_of_mem a hm)),
      ack_step_ok]
    have hne : a ≠ c := fun he => h (he ▸ List.mem_cons_self a l)
    simp [hne]

theorem ack_fold_ok_mem (tags : List Nat) :
    ∀ (l : List Nat) (r0 : Reactor) (c : Nat), l.Nodup → c ∈ l →
      ok_upsert_acks ((l.foldl (ack_step tags) r0).trace) c =
        ok_upsert_acks r0.trace c + List.count c tags := by
  intro l
  induction l with
  | nil =>
    intro r0 c _ h
    exact absurd h (List.not_mem_nil c)
  | cons a l ih =>
    intro r0 c hnd hc
    rw [List.foldl_cons]
    rcases List.mem_cons.mp hc with heq | hcl
    · subst heq
      rw [ack_fold_ok_notmem tags l _ _ (List.nodup_cons.mp hnd).1,
        ack_step_ok]
      simp
    · have hne : a ≠ c := by
        intro he
        exact (List.nodup_cons.mp hnd).1 (he ▸ hcl)
      rw [ih _ c (List.nodup_cons.mp hnd).2 hcl, ack_step_ok]
      simp [hne]

theorem ack_fold_committed (tags : List Nat) :
    ∀ (l : List Nat) (r0 : Reactor) (c : Nat),
      committed_upserts ((l.foldl (ack_step tags) r0).trace) c =
        committed_upserts r0.trace c := by
  intro l
  induction l with
  | nil =>
    intro r0 c
    rfl
  | cons a l ih =>
    intro r0 c
    rw [List.foldl_cons, ih, ack_step_committed]

theorem tn_wake_fold : ∀ (l : List Nat) (r : Reactor),
    TraceNeutral r (l.foldl wake_step r) := by
  intro l
  induction l with
  | nil =>
    intro r
    exact tn_refl r
  | cons a l ih =>
    intro r
    rw [List.foldl_cons]
    exact tn_trans (proc_frames_neutral _ _ _) (ih _)

theorem batch_complete_counts (r : Reactor) (batch : BatchAccumulator)
    (c : Nat) (hc : c < 32) :
    ok_upsert_acks (handle_batch_complete r batch).trace c =
      ok_upsert_acks r.trace c + List.count c batch.tags ∧
    committed_upserts (handle_batch_complete r batch).trace c =
      committed_upserts r.trace c + List.count c batch.tags := by
  set r1 := emit { r with flushing := none } (Obs.batchDone batch.tags) with hr1
  set r2 := (List.range 32).foldl (ack_step batch.tags) r1 with hr2
  have hterm : handle_batch_complete r batch =
      r2.paused_reads.foldl wake_step { r2 with paused_reads := [] } := by
    rw [hr2, hr1]
    rfl
  rw [hterm]
  have hwk := tn_counts
    (tn_wake_fold r2.paused_reads { r2 with paused_reads := [] }) c
  have h1 : ok_upsert_acks ({ r2 with paused_reads := ([] : List Nat) }).trace c =
      ok_upsert_acks r2.trace c := rfl
  have h1b : committed_upserts ({ r2 with paused_reads := ([] : List Nat) }).trace c =
      committed_upserts r2.trace c := rfl
  have h2 : ok_upsert_acks r2.trace c =
      ok_upsert_acks r1.trace c + List.count c batch.tags := by
    rw [hr2]
    exact ack_fold_ok_mem batch.tags (List.range 32) r1 c
      (List.nodup_range 32) (List.mem_range.mpr hc)
  have h4 : committed_upserts r2.trace c = committed_upserts r1.trace c := by
    rw [hr2]
    exact ack_fold_committed batch.tags (List.range 32) r1 c
  have htr1 : r1.trace = r.trace ++ [Obs.batchDone batch.tags] := by
    rw [hr1]
    rfl
  have h3 : ok_upsert_acks r1.trace c = ok_upsert_acks r.trace c := by
    rw [htr1, ok_acks_append]
    simp [ok_upsert_acks, isOkUpsertAck]
  have h5 : committed_upserts r1.trace c =
      committed_upserts r.trace c + List.count c batch.tags := by
    rw [htr1, committed_append]
    simp [committed_upserts, committed_count]
  have hwk1 := hwk.1
  have hwk2 := hwk.2
  constructor
  · omega
  · omega

theorem step_preserves_ledger (r : Reactor) (e : Ev)
    (h : ∀ c2, c2 < 32 →
      ok_upsert_acks r.trace c2 = committed_upserts r.trace c2) :
    ∀ c2, c2 < 32 →
      ok_upsert_acks (step r e).trace c2 =
        committed_upserts (step r e).trace c2 := by
  intro c2 hc2
  cases e with
  | ingress c3 chunk =>
    simp only [step]
    by_cases hb1 : 32 ≤ c3
    · rw [if_pos hb1]
      exact h c2 hc2
    · rw [if_neg hb1]
      by_cases hb2 : chunk.isEmpty = true
      · rw [if_pos hb2]
        exact h c2 hc2
      · rw [if_neg hb2]
        have hn := tn_counts (ingest_neutral chunk.length r c3 chunk) c2
        rw [hn.1, hn.2]
        exact h c2 hc2
  | flushEot =>
    have hn := tn_counts (tn_flush_active r) c2
    simp only [step]
    rw [hn.1, hn.2]
    exact h c2 hc2
  | batchDone =>
    simp only [step]
    cases hfl : r.flushing with
    | none =>
      exact h c2 hc2
    | some fl =>
      have hn := batch_complete_counts r fl.1 c2 hc2
      rw [hn.1, hn.2, h c2 hc2]
  | writeDone c3 =>
    have hn := tn_counts (tn_handle_write_complete r c3) c2
    simp only [step]
    rw [hn.1, hn.2]
    exact h c2 hc2

/-- C1: in every reachable reactor state, for every connection slot,
the number of ok-status upsert response headers ever prepared equals
the number of that slot's upserts inside batches whose WAL write has
completed.  Since this holds after every event prefix, an ok upsert
response is never prepared before `handle_batch_complete` has run for
the batch that recorded the request: ingress handling appends upserts
to the batch without preparing any ok response, and only the batch
completion handler emits them, one per recorded tag. -/
theorem c1_upsert_ok_ack_only_after_batch_complete :
    ∀ (es : List Ev) (c : Fin 32),
      ok_upsert_acks (run_events es).trace c.val =
        committed_upserts (run_events es).trace c.val := by
  have main : ∀ (es : List Ev) (r : Reactor),
      (∀ c2, c2 < 32 →
        ok_upsert_acks r.trace c2 = committed_upserts r.trace c2) →
      ∀ c2, c2 < 32 →
        ok_upsert_acks (es.foldl step r).trace c2 =
          committed_upserts (es.foldl step r).trace c2 := by
    intro es
    induction es with
    | nil =>
      intro r h
      exact h
    | cons e es ih =>
      intro r h
      rw [List.foldl_cons]
      exact ih (step r e) (step_preserves_ledger r e h)
  intro es c
  exact main es Reactor.init (fun c2 _ => rfl) c.val c.isLt

/-- C2: the reactor executes every search with the zero-initialised
`scratch_query_buffer`, never parsing the query vector out of the
frame payload: two search frames with different 512-byte payloads
produce identical traces, and the query passed to the index is the
all-zero scratch buffer, so the search result cannot depend on the
payload bytes. -/
theorem c2_search_query_ignores_payload :
    (run_events [Ev.ingress 0 (c2_search_frame c2_payload1)]).trace =
      [Obs.searchExec 0 zero_query,
        Obs.ackPrepared 0 CMD_SEARCH STATUS_OK 77] ∧
    (run_events [Ev.ingress 0 (c2_search_frame c2_payload2)]).trace =
      [Obs.searchExec 0 zero_query,
        Obs.ackPrepared 0 CMD_SEARCH STATUS_OK 77] ∧
    c2_payload1 ≠ c2_payload2 ∧
    zero_query = List.replicate 128 0 :=
  ⟨by decide, by decide, by decide, rfl⟩

end Vortex
